import Mathlib

/-!
Shallow embedding of the task-scheduling and syscall core of the os4 kernel
(`src/os4/src/task/mod.rs` and `src/os4/src/syscall/process.rs`).

Pure state kept by the kernel (`TaskManagerInner`) is a `State`; each kernel
operation becomes a function on `State`.  A `panic!` (kernel halt) is the
`KStep.halted` constructor carrying the state at the instant of the halt.
Wall-clock reads (`get_time_ms`, `get_time_us`) are passed in as explicit
`now`/`us` arguments.  Machine counters are modelled as `Nat`.
-/

namespace Os4

/-- Task status enum, from `task/task.rs` (re-exported by `task/mod.rs`). -/
inductive TaskStatus where
  | UnInit
  | Ready
  | Running
  | Exited
deriving DecidableEq, Inhabited

/-- The fields of `TaskControlBlock` that the scheduling and accounting code
reads or writes: `task_status`, `first_time`, `dispatched`, `syscall_times`.
The saved context, trap context and page table are opaque to the claims and
omitted. -/
structure TCB where
  task_status : TaskStatus
  first_time : Nat
  dispatched : Bool
  syscall_times : List Nat
deriving DecidableEq, Inhabited

/-- `TaskManagerInner`: the task list and the index of the current task.
`num_app` in the source always equals `tasks.len()` (both are set from the
same loop at initialization), so it is `tasks.length` here. -/
structure State where
  tasks : List TCB
  current_task : Nat
deriving DecidableEq

/-- `inner.tasks[i]` (in-bounds in every reachable use in the source). -/
def taskAt (st : State) (i : Nat) : TCB :=
  st.tasks.getD i default

/-- In-place update of `inner.tasks[i]`. -/
def modifyTask (st : State) (i : Nat) (f : TCB → TCB) : State :=
  { st with tasks := st.tasks.set i (f (taskAt st i)) }

/-- Result of a kernel operation that may panic: `ok` is normal return,
`halted` is `panic!` with the state at the instant of the halt (a panic
stops the kernel, so nothing is modified afterwards). -/
inductive KStep where
  | ok (s : State)
  | halted (s : State)
deriving DecidableEq

/-- The state carried by a `KStep`. -/
def resultState : KStep → State
  | .ok s => s
  | .halted s => s

/-- Modelled from the spec: `TaskControlBlock::new` (`task/task.rs`, not under
`src/`) creates each task with status `Ready`, accounting counters zeroed and
the dispatched flag clear; `TASK_MANAGER` initialization builds one TCB per
app and sets `current_task` to 0.  `n` is the number of apps, `m` is
`MAX_SYSCALL_NUM`. -/
def initState (n m : Nat) : State :=
  { tasks := List.replicate n
      { task_status := .Ready, first_time := 0, dispatched := false,
        syscall_times := List.replicate m 0 },
    current_task := 0 }

/-- `TaskManager::run_first_task`: marks task 0 Running, records its dispatch
time and sets the dispatched flag, then switches into it (`current_task` is
already 0 from initialization and is not written). -/
def runFirstTask (now : Nat) (st : State) : State :=
  modifyTask st 0 fun t =>
    { t with task_status := .Running, first_time := now, dispatched := true }

/-- `TaskManager::mark_current_suspended`: sets the current task's status to
`Ready`. -/
def markCurrentSuspended (st : State) : State :=
  modifyTask st st.current_task fun t => { t with task_status := .Ready }

/-- `TaskManager::mark_current_exited`: sets the current task's status to
`Exited`. -/
def markCurrentExited (st : State) : State :=
  modifyTask st st.current_task fun t => { t with task_status := .Exited }

/-- `TaskManager::find_next_task`: scan ids `current+1 .. current+num_app+1`,
reduce each modulo `num_app`, and return the first whose status is `Ready`. -/
def findNextTask (st : State) : Option Nat :=
  ((List.range st.tasks.length).map
      (fun k => (st.current_task + 1 + k) % st.tasks.length)).find?
    (fun id => decide ((taskAt st id).task_status = .Ready))

/-- `TaskManager::run_next_task`: if `find_next_task` yields `next`, set its
status to `Running`, record its dispatch time if it was never dispatched,
update `current_task` and switch; otherwise `panic!("All applications
completed!")`. -/
def runNextTask (now : Nat) (st : State) : KStep :=
  match findNextTask st with
  | some next =>
    let st1 := modifyTask st next fun t => { t with task_status := .Running }
    let st2 :=
      if (taskAt st1 next).dispatched = false then
        modifyTask st1 next fun t =>
          { t with first_time := now, dispatched := true }
      else st1
    .ok { st2 with current_task := next }
  | none => .halted st

/-- `suspend_current_and_run_next`: `mark_current_suspended` then
`run_next_task`. -/
def suspendCurrentAndRunNext (now : Nat) (st : State) : KStep :=
  runNextTask now (markCurrentSuspended st)

/-- `exit_current_and_run_next`: `mark_current_exited` then
`run_next_task`. -/
def exitCurrentAndRunNext (now : Nat) (st : State) : KStep :=
  runNextTask now (markCurrentExited st)

/-- The public scheduling operations available after `run_first_task`
(invoked by `sys_yield` and `sys_exit`); `now` is the value `get_time_ms`
returns during the operation. -/
inductive Op where
  | suspend (now : Nat)
  | exit (now : Nat)
deriving DecidableEq

/-- One public scheduling operation applied to a state. -/
def stepOp : Op → State → KStep
  | .suspend now, st => suspendCurrentAndRunNext now st
  | .exit now, st => exitCurrentAndRunNext now st

/-- A sequence of public scheduling operations; a `panic!` halts the kernel,
so a halted state absorbs the remaining operations. -/
def runOps : List Op → State → KStep
  | [], st => .ok st
  | op :: ops, st =>
    match stepOp op st with
    | .ok st' => runOps ops st'
    | .halted h => .halted h

/-- States reachable from initialization: `run_first_task` on the initial
table (nonempty, as the kernel indexes task 0), then any sequence of
`suspend_current_and_run_next` / `exit_current_and_run_next` that has not
halted the kernel. -/
def Reachable (st : State) : Prop :=
  ∃ n m now ops, 0 < n ∧ runOps ops (runFirstTask now (initState n m)) = .ok st

/-- `TaskManager::add_one_to_current_task`: increments the current task's
`syscall_times[call_id]` by one (re-exported as `add_one_while_syscall`). -/
def addOneToCurrentTask (st : State) (call_id : Nat) : State :=
  modifyTask st st.current_task fun t =>
    { t with syscall_times :=
        t.syscall_times.set call_id (t.syscall_times.getD call_id 0 + 1) }

/-- Modelled from the spec: the syscall dispatch layer (`syscall/mod.rs` and
the trap handler, not under `src/`) records each syscall invocation by calling
`add_one_while_syscall` with the syscall identifier exactly once per
invocation. -/
def syscallEntry (st : State) (id : Nat) : State :=
  addOneToCurrentTask st id

/-! ## Syscall-facing API (`syscall/process.rs`) -/

/-- `TimeVal`: seconds and microseconds-within-second. -/
structure TimeVal where
  sec : Nat
  usec : Nat
deriving DecidableEq

/-- `TaskInfo`: status, syscall-count table, elapsed running time (ms). -/
structure TaskInfo where
  status : TaskStatus
  syscall_times : List Nat
  time : Nat
deriving DecidableEq

/-- Outcome of a syscall whose body may panic: `ret` carries the returned
value and the record written through the translated window (`none` when
nothing was written); `panicked` is a kernel panic. -/
inductive SyscallOutcome where
  | ret (v : Int) (written : Option TaskInfo)
  | panicked
deriving DecidableEq

/-- `TaskManager::get_current_task_status`: returns the literal
`TaskStatus::Running`. -/
def getCurrentTaskStatus : TaskStatus :=
  .Running

/-- `TaskManager::get_current_task_costed_time`: `get_time_ms()` minus the
current task's `first_time`. -/
def getCurrentTaskCostedTime (now : Nat) (st : State) : Nat :=
  now - (taskAt st st.current_task).first_time

/-- `TaskManager::get_current_task_syscall_times`: a copy of the current
task's counter table. -/
def getCurrentTaskSyscallTimes (st : State) : List Nat :=
  (taskAt st st.current_task).syscall_times

/-- `get_task_info_inner`: the `TaskInfo` record written through the
pointer. -/
def getTaskInfoInner (now : Nat) (st : State) : TaskInfo :=
  { status := getCurrentTaskStatus,
    syscall_times := getCurrentTaskSyscallTimes st,
    time := getCurrentTaskCostedTime now st }

/-- `sys_get_time`: `translated_byte_buffer` (in `mm`, not under `src/`)
yields `numWindows` physical windows for the user buffer; with exactly one
window the `TimeVal` built from `us = get_time_us()` is written through it,
otherwise only an error is logged and nothing is written; the function
returns 0 in both cases.  The result pairs the return value with the record
written (`none` when nothing was written). -/
def sysGetTime (us : Nat) (numWindows : Nat) : Int × Option TimeVal :=
  if numWindows = 1 then
    (0, some { sec := us / 1000000, usec := us % 1000000 })
  else
    (0, none)

/-- `sys_task_info`: with exactly one translated window the record from
`get_task_info_inner` is written and 0 returned; otherwise the kernel logs an
error and executes `panic!("!!!!")`. -/
def sysTaskInfo (now : Nat) (st : State) (numWindows : Nat) : SyscallOutcome :=
  if numWindows = 1 then
    .ret 0 (some (getTaskInfoInner now st))
  else
    .panicked

/-! ## mmap (`sys_mmap_inner` in `task/mod.rs`) -/

/-- `PAGE_SIZE` from `config.rs` (not under `src/`): 4096-byte pages, per the
spec's fixed-size page units. -/
def PAGE_SIZE : Nat := 4096

/-- `VirtAddr::aligned` (in `mm`, not under `src/`): the address is a
multiple of the page size. -/
def aligned (va : Nat) : Bool :=
  va % PAGE_SIZE == 0

/-- A mapped area as a half-open range of virtual page numbers. -/
structure MemorySet where
  areas : List (Nat × Nat)
deriving DecidableEq

/-- Two half-open page ranges intersect. -/
def regionOverlaps (a b : Nat × Nat) : Bool :=
  a.1 < b.2 && b.1 < a.2

/-- Modelled from the spec: `MemorySet::mmap` (`mm/memory_set.rs`, not under
`src/`) installs a new mapping of `len` bytes rounded up to whole pages at
`start` with the requested permissions, failing with -1 and leaving the
address space unchanged if the region overlaps an existing mapping, and
returning 0 on success. -/
def MemorySet.mmap (ms : MemorySet) (start len _port : Nat) : Int × MemorySet :=
  let lo := start / PAGE_SIZE
  let hi := (start + len + PAGE_SIZE - 1) / PAGE_SIZE
  if ms.areas.any (fun a => regionOverlaps a (lo, hi)) then
    (-1, ms)
  else
    (0, { areas := ms.areas ++ [(lo, hi)] })

/-- `sys_mmap_inner`: rejects with -1 when `start` is not page-aligned, when
`port` has a bit set outside the low 3 bits (`port & !0x7 != 0`, i.e.
`port / 8 ≠ 0`), or when none of the low 3 bits is set (`port & 0x7 == 0`,
i.e. `port % 8 = 0`); otherwise delegates to the current task's
`memory_set.mmap`. -/
def sysMmapInner (ms : MemorySet) (start len port : Nat) : Int × MemorySet :=
  if ¬ aligned start ∨ port / 8 ≠ 0 ∨ port % 8 = 0 then
    (-1, ms)
  else
    ms.mmap start len port

/-! ## Basic lemmas about the embedding -/

theorem modifyTask_current (st : State) (i : Nat) (f : TCB → TCB) :
    (modifyTask st i f).current_task = st.current_task := rfl

theorem modifyTask_length (st : State) (i : Nat) (f : TCB → TCB) :
    (modifyTask st i f).tasks.length = st.tasks.length := by
  simp [modifyTask]

theorem taskAt_modify_self (st : State) (i : Nat) (f : TCB → TCB)
    (h : i < st.tasks.length) :
    taskAt (modifyTask st i f) i = f (taskAt st i) := by
  simp [taskAt, modifyTask, List.getD_eq_getElem?_getD, List.getElem?_set_self h]

theorem taskAt_modify_ne (st : State) (i j : Nat) (f : TCB → TCB)
    (h : i ≠ j) :
    taskAt (modifyTask st i f) j = taskAt st j := by
  simp [taskAt, modifyTask, List.getD_eq_getElem?_getD, List.getElem?_set_ne h]

theorem taskAt_oob (st : State) (i : Nat) (h : st.tasks.length ≤ i) :
    taskAt st i = default := by
  simp [taskAt, List.getD_eq_getElem?_getD, List.getElem?_eq_none h]

theorem default_status : (default : TCB).task_status = .UnInit := rfl

/-- `List.find?` over a mapped range returns the image of the least index
satisfying the predicate. -/
theorem find?_range_eq_some {q : Nat → Bool} {n k : Nat}
    (hk : k < n) (hq : q k = true)
    (hmin : ∀ j, j < k → q j = false) :
    (List.range n).find? q = some k := by
  induction n with
  | zero => omega
  | succ m ih =>
    rw [List.range_succ, List.find?_append]
    rcases Nat.lt_or_ge k m with hkm | hkm
    · rw [ih hkm]
      rfl
    · have hkeq : k = m := by omega
      subst hkeq
      have hnone : (List.range k).find? q = none := by
        rw [List.find?_eq_none]
        intro x hx
        simp only [List.mem_range] at hx
        simp [hmin x hx]
      rw [hnone, Option.none_or]
      simp [hq]

/-- `List.find?` over a mapped range returns the image of the least index
satisfying the predicate. -/
theorem find?_range_map_eq_some {f : Nat → Nat} {p : Nat → Bool} {n k : Nat}
    (hk : k < n) (hp : p (f k) = true)
    (hmin : ∀ j, j < k → p (f j) = false) :
    ((List.range n).map f).find? p = some (f k) := by
  rw [List.find?_map]
  have h := find?_range_eq_some (q := p ∘ f) hk hp hmin
  rw [h]
  rfl

/-- If `find_next_task` yields an id, that id is in range and Ready. -/
theorem findNextTask_sound (st : State) (next : Nat)
    (h : findNextTask st = some next) :
    next < st.tasks.length ∧ (taskAt st next).task_status = .Ready := by
  have hp := List.find?_some h
  have hmem := List.mem_of_find?_eq_some h
  simp only [decide_eq_true_eq] at hp
  refine ⟨?_, hp⟩
  simp only [List.mem_map, List.mem_range] at hmem
  obtain ⟨k, hk, hkeq⟩ := hmem
  rw [← hkeq]
  exact Nat.mod_lt _ (by omega)

/-! ## The scheduling invariant -/

/-- Invariant maintained by initialization and the public scheduling
operations: the table is nonempty, `current_task` is in range and Running,
no other task is Running, and a task that was never dispatched is Ready. -/
def Inv (st : State) : Prop :=
  0 < st.tasks.length ∧
  st.current_task < st.tasks.length ∧
  (taskAt st st.current_task).task_status = .Running ∧
  (∀ i, (taskAt st i).task_status = .Running → i = st.current_task) ∧
  (∀ i, i < st.tasks.length → (taskAt st i).dispatched = false →
    (taskAt st i).task_status = .Ready)

theorem taskAt_initState (n m i : Nat) :
    taskAt (initState n m) i =
      if i < n then
        { task_status := .Ready, first_time := 0, dispatched := false,
          syscall_times := List.replicate m 0 }
      else default := by
  simp only [taskAt, initState, List.getD_eq_getElem?_getD, List.getElem?_replicate]
  split <;> rfl

theorem inv_init (n m now : Nat) (hn : 0 < n) :
    Inv (runFirstTask now (initState n m)) := by
  have hlen : (initState n m).tasks.length = n := by
    simp [initState]
  have hat : ∀ i, taskAt (runFirstTask now (initState n m)) i =
      if i = 0 then
        { task_status := .Running, first_time := now, dispatched := true,
          syscall_times := List.replicate m 0 }
      else taskAt (initState n m) i := by
    intro i
    by_cases hi : i = 0
    · subst hi
      rw [if_pos rfl, runFirstTask,
        taskAt_modify_self _ _ _ (by omega), taskAt_initState]
      rw [if_pos hn]
    · rw [if_neg hi, runFirstTask, taskAt_modify_ne _ _ _ _ (fun h => hi h.symm)]
  have hcur : (runFirstTask now (initState n m)).current_task = 0 := rfl
  have hlen' : (runFirstTask now (initState n m)).tasks.length = n := by
    rw [runFirstTask, modifyTask_length, hlen]
  refine ⟨by omega, by omega, ?_, ?_, ?_⟩
  · rw [hcur, hat 0, if_pos rfl]
  · intro i hrun
    rw [hcur]
    by_contra hne
    rw [hat i, if_neg hne, taskAt_initState] at hrun
    by_cases hin : i < n
    · rw [if_pos hin] at hrun
      exact absurd hrun (by simp)
    · rw [if_neg hin] at hrun
      exact absurd hrun (by simp [default_status])
  · intro i hi hdisp
    rw [hlen'] at hi
    by_cases h0 : i = 0
    · subst h0
      rw [hat 0, if_pos rfl] at hdisp
      exact absurd hdisp (by simp)
    · rw [hat i, if_neg h0, taskAt_initState, if_pos hi] at hdisp ⊢

theorem taskAt_setCurrent (st : State) (c i : Nat) :
    taskAt { st with current_task := c } i = taskAt st i := rfl

theorem length_setCurrent (st : State) (c : Nat) :
    ({ st with current_task := c } : State).tasks.length = st.tasks.length :=
  rfl

/-- Characterization of the successful branch of `run_next_task`: the result
state has `current_task = next`, task `next` is Running (with the one-shot
dispatch write exactly when its dispatched flag was clear), and every other
task is untouched. -/
theorem runNextTask_ok_char (now : Nat) (st : State) (next : Nat)
    (hfind : findNextTask st = some next) :
    ∃ st', runNextTask now st = .ok st' ∧
      st'.current_task = next ∧
      st'.tasks.length = st.tasks.length ∧
      (∀ j, j ≠ next → taskAt st' j = taskAt st j) ∧
      ((taskAt st next).dispatched = false →
        taskAt st' next = { taskAt st next with
          task_status := .Running, first_time := now, dispatched := true }) ∧
      ((taskAt st next).dispatched = true →
        taskAt st' next = { taskAt st next with task_status := .Running }) := by
  obtain ⟨hnext_lt, _⟩ := findNextTask_sound st next hfind
  have hat1self : taskAt (modifyTask st next
        (fun t => { t with task_status := .Running })) next =
      { taskAt st next with task_status := .Running } :=
    taskAt_modify_self _ _ _ hnext_lt
  have hat1ne : ∀ j, j ≠ next →
      taskAt (modifyTask st next
        (fun t => { t with task_status := .Running })) j = taskAt st j :=
    fun j hj => taskAt_modify_ne _ _ _ _ (fun e => hj e.symm)
  have hlen1 : (modifyTask st next
      (fun t => { t with task_status := .Running })).tasks.length =
      st.tasks.length := modifyTask_length _ _ _
  unfold runNextTask
  rw [hfind]
  simp only []
  by_cases hd : (taskAt (modifyTask st next
      (fun t => { t with task_status := .Running })) next).dispatched = false
  · rw [if_pos hd]
    rw [hat1self] at hd
    refine ⟨_, rfl, rfl, ?_, ?_, ?_, ?_⟩
    · rw [length_setCurrent, modifyTask_length, hlen1]
    · intro j hj
      rw [taskAt_setCurrent, taskAt_modify_ne _ _ _ _ (fun e => hj e.symm),
        hat1ne j hj]
    · intro _
      rw [taskAt_setCurrent, taskAt_modify_self _ _ _ (by omega), hat1self]
    · intro htrue
      exact absurd htrue (by simp_all)
  · rw [if_neg hd]
    rw [hat1self] at hd
    refine ⟨_, rfl, rfl, ?_, ?_, ?_, ?_⟩
    · rw [length_setCurrent, hlen1]
    · intro j hj
      rw [taskAt_setCurrent, hat1ne j hj]
    · intro hfalse
      exact absurd hfalse (by simp_all)
    · intro _
      rw [taskAt_setCurrent, hat1self]

/-- `run_next_task` preserves the invariant clauses, assuming the current
task's status has already been cleared to Ready or Exited. -/
theorem runNextTask_ok_inv (now : Nat) (st : State)
    (hnorun : ∀ i, (taskAt st i).task_status ≠ .Running)
    (hdisp : ∀ i, i < st.tasks.length → (taskAt st i).dispatched = false →
      (taskAt st i).task_status = .Ready)
    {st' : State} (h : runNextTask now st = .ok st') : Inv st' := by
  cases hfind : findNextTask st with
  | none =>
    unfold runNextTask at h
    rw [hfind] at h
    exact absurd h (by simp)
  | some next =>
    obtain ⟨hnext_lt, _⟩ := findNextTask_sound st next hfind
    obtain ⟨s2, hok, hc, hl, hne, hdt, hdf⟩ :=
      runNextTask_ok_char now st next hfind
    rw [hok] at h
    cases h
    have hstatus : (taskAt st' next).task_status = .Running := by
      cases hb : (taskAt st next).dispatched with
      | false => rw [hdt hb]
      | true => rw [hdf hb]
    have hdispnext : (taskAt st' next).dispatched = true := by
      cases hb : (taskAt st next).dispatched with
      | false => rw [hdt hb]
      | true => rw [hdf hb]; exact hb
    refine ⟨by omega, by omega, ?_, ?_, ?_⟩
    · rw [hc]
      exact hstatus
    · intro i hrun
      rw [hc]
      by_contra hni
      rw [hne i hni] at hrun
      exact hnorun i hrun
    · intro i hi hdfi
      by_cases hni : i = next
      · subst hni
        rw [hdispnext] at hdfi
        exact absurd hdfi (by simp)
      · rw [hne i hni] at hdfi ⊢
        exact hdisp i (by omega) hdfi

theorem taskAt_markSuspended_self (st : State)
    (h : st.current_task < st.tasks.length) :
    taskAt (markCurrentSuspended st) st.current_task =
      { taskAt st st.current_task with task_status := .Ready } :=
  taskAt_modify_self _ _ _ h

theorem taskAt_markSuspended_ne (st : State) (i : Nat)
    (h : i ≠ st.current_task) :
    taskAt (markCurrentSuspended st) i = taskAt st i :=
  taskAt_modify_ne _ _ _ _ (fun e => h e.symm)

theorem taskAt_markExited_self (st : State)
    (h : st.current_task < st.tasks.length) :
    taskAt (markCurrentExited st) st.current_task =
      { taskAt st st.current_task with task_status := .Exited } :=
  taskAt_modify_self _ _ _ h

theorem taskAt_markExited_ne (st : State) (i : Nat)
    (h : i ≠ st.current_task) :
    taskAt (markCurrentExited st) i = taskAt st i :=
  taskAt_modify_ne _ _ _ _ (fun e => h e.symm)

/-- Each public scheduling operation that returns normally preserves the
invariant. -/
theorem stepOp_ok_inv (op : Op) (st : State) (hInv : Inv st) {st' : State}
    (h : stepOp op st = .ok st') : Inv st' := by
  obtain ⟨hlen, hcur, hrun, huniq, hdisp⟩ := hInv
  cases op with
  | suspend now =>
    refine runNextTask_ok_inv now (markCurrentSuspended st) ?_ ?_ h
    · intro i
      by_cases hi : i = st.current_task
      · subst hi
        rw [taskAt_markSuspended_self st hcur]
        simp
      · rw [taskAt_markSuspended_ne st i hi]
        intro hr
        exact hi (huniq i hr)
    · intro i hi hdf
      rw [markCurrentSuspended, modifyTask_length] at hi
      by_cases hieq : i = st.current_task
      · subst hieq
        rw [taskAt_markSuspended_self st hcur]
      · rw [taskAt_markSuspended_ne st i hieq] at hdf ⊢
        exact hdisp i hi hdf
  | exit now =>
    refine runNextTask_ok_inv now (markCurrentExited st) ?_ ?_ h
    · intro i
      by_cases hi : i = st.current_task
      · subst hi
        rw [taskAt_markExited_self st hcur]
        simp
      · rw [taskAt_markExited_ne st i hi]
        intro hr
        exact hi (huniq i hr)
    · intro i hi hdf
      rw [markCurrentExited, modifyTask_length] at hi
      by_cases hieq : i = st.current_task
      · subst hieq
        rw [taskAt_markExited_self st hcur] at hdf
        have : (taskAt st st.current_task).dispatched = false := hdf
        have hready := hdisp st.current_task hcur this
        rw [hrun] at hready
        exact absurd hready (by simp)
      · rw [taskAt_markExited_ne st i hieq] at hdf ⊢
        exact hdisp i hi hdf

theorem runOps_ok_inv (ops : List Op) (st : State) (hInv : Inv st)
    {st' : State} (h : runOps ops st = .ok st') : Inv st' := by
  induction ops generalizing st with
  | nil =>
    cases h
    exact hInv
  | cons op ops ih =>
    unfold runOps at h
    cases hs : stepOp op st with
    | ok s1 =>
      rw [hs] at h
      exact ih s1 (stepOp_ok_inv op st hInv hs) h
    | halted s1 =>
      rw [hs] at h
      exact absurd h (by simp)

/-- Every reachable state satisfies the scheduling invariant. -/
theorem reachable_inv (st : State) (h : Reachable st) : Inv st := by
  obtain ⟨n, m, now, ops, hn, hrunops⟩ := h
  exact runOps_ok_inv ops _ (inv_init n m now hn) hrunops

/-! ## Concrete states used to instantiate the claim theorems -/

/-- Three freshly loaded tasks after `run_first_task` at time 10. -/
def demoState0 : State := runFirstTask 10 (initState 3 4)

/-- `demoState0` after task 0 exits at time 20 (task 0 Exited, task 1
Running). -/
def demoState1 : State := resultState (runOps [Op.exit 20] demoState0)

/-- A table where the nearest Ready task after `current` is at offset 2. -/
def scanState : State :=
  { tasks :=
      [ { task_status := .Exited, first_time := 0, dispatched := true,
          syscall_times := [] },
        { task_status := .Exited, first_time := 0, dispatched := true,
          syscall_times := [] },
        { task_status := .Ready, first_time := 0, dispatched := false,
          syscall_times := [] } ],
    current_task := 0 }

/-- A table with no Ready task at all. -/
def doneState : State :=
  { tasks :=
      [ { task_status := .Exited, first_time := 3, dispatched := true,
          syscall_times := [] } ],
    current_task := 0 }

/-! ## Claim theorems -/

/-- Claim C1: `find_next_task` scans indices `(current+1) .. (current+1+N)`
modulo `N` in that order and returns the first whose status is Ready: if the
index at scan offset `k` is Ready and no earlier scan offset is, the scan
returns exactly that index, so the nearest Ready index after `current` is
never skipped. -/
theorem find_next_task_selects_first_ready (st : State) (k : Nat)
    (hk : k < st.tasks.length)
    (hready : (taskAt st ((st.current_task + 1 + k) %
      st.tasks.length)).task_status = .Ready)
    (hmin : ∀ j, j < k → (taskAt st ((st.current_task + 1 + j) %
      st.tasks.length)).task_status ≠ .Ready) :
    findNextTask st =
      some ((st.current_task + 1 + k) % st.tasks.length) := by
  unfold findNextTask
  refine find?_range_map_eq_some hk ?_ ?_
  · exact decide_eq_true hready
  · intro j hj
    exact decide_eq_false (hmin j hj)

/-- Witness for C1 on `scanState`: the scan returns index 2, the nearest
Ready index after the current index 0. -/
theorem find_next_task_selects_first_ready_witness :
    findNextTask scanState = some 2 :=
  find_next_task_selects_first_ready scanState 1 (by decide) (by decide)
    (by decide)

/-- Claim C2: in every state reachable from initialization by the public
scheduling operations, at most one TCB has status Running: any two Running
indices coincide. -/
theorem at_most_one_running (st : State) (h : Reachable st) (i j : Nat)
    (hi : (taskAt st i).task_status = .Running)
    (hj : (taskAt st j).task_status = .Running) : i = j := by
  obtain ⟨-, -, -, huniq, -⟩ := reachable_inv st h
  rw [huniq i hi, huniq j hj]

/-- Witness for C2 on the reachable state `demoState1`. -/
theorem at_most_one_running_witness :
    Reachable demoState1 ∧ (1 : Nat) = 1 :=
  ⟨⟨3, 4, 10, [.exit 20], by decide, by decide⟩,
    at_most_one_running demoState1
      ⟨3, 4, 10, [.exit 20], by decide, by decide⟩ 1 1 (by decide) (by decide)⟩

/-- Claim C4: if no task is Ready, `run_next_task` is the fatal
`AllTasksCompleted` panic: the kernel halts with every task status and the
current index unchanged, and the call never returns normally. -/
theorem run_next_task_halts_when_none_ready (now : Nat) (st : State)
    (h : findNextTask st = none) :
    runNextTask now st = .halted st := by
  unfold runNextTask
  rw [h]

/-- Witness for C4 on `doneState`, whose only task is Exited. -/
theorem run_next_task_halts_when_none_ready_witness :
    runNextTask 7 doneState = .halted doneState :=
  run_next_task_halts_when_none_ready 7 doneState (by decide)

/-- Counterexample to claim C3: with a buffer that translates to two
windows, `sys_get_time` writes nothing and still returns 0, so 0 is
returned on a call that did not fully write the time record. -/
theorem sys_get_time_returns_zero_without_write :
    (sysGetTime 5 2).1 = 0 ∧ (sysGetTime 5 2).2 = none := by
  decide

/-- Claim C3 as amended: `sys_get_time` returns 0 unconditionally; the time
record is written exactly when translation yields a single window, and in
the multi-window case nothing is written (the condition is only logged), so
a 0 return does not indicate success. -/
theorem sys_get_time_behaviour (us w : Nat) :
    (sysGetTime us w).1 = 0 ∧
    ((sysGetTime us w).2 =
        some { sec := us / 1000000, usec := us % 1000000 } ↔ w = 1) := by
  unfold sysGetTime
  by_cases hw : w = 1
  · rw [if_pos hw]
    exact ⟨rfl, by simp [hw]⟩
  · rw [if_neg hw]
    exact ⟨rfl, by simp [hw]⟩

/-- Claim C6: on a single-window buffer, `sys_task_info` writes exactly the
current task's status, its syscall-count table and `now` minus its dispatch
time, and returns 0 (in every reachable state the current task's status is
Running, which is the value `get_current_task_status` reports). -/
theorem sys_task_info_record (st : State) (h : Reachable st) (now : Nat) :
    sysTaskInfo now st 1 = .ret 0 (some
      { status := (taskAt st st.current_task).task_status,
        syscall_times := (taskAt st st.current_task).syscall_times,
        time := now - (taskAt st st.current_task).first_time }) := by
  obtain ⟨-, -, hrunning, -, -⟩ := reachable_inv st h
  unfold sysTaskInfo
  rw [if_pos rfl]
  unfold getTaskInfoInner getCurrentTaskStatus getCurrentTaskSyscallTimes
    getCurrentTaskCostedTime
  rw [hrunning]

/-- Witness for C6 on the reachable state `demoState0` at time 50. -/
theorem sys_task_info_record_witness :
    sysTaskInfo 50 demoState0 1 = .ret 0 (some
      { status := .Running, syscall_times := List.replicate 4 0,
        time := 40 }) := by
  rw [sys_task_info_record demoState0 ⟨3, 4, 10, [], by decide, by decide⟩ 50]
  decide

/-- Counterexample to claim C8: with a buffer that translates to two
windows, `sys_task_info` does not surface an error to the syscall layer: it
panics. -/
theorem sys_task_info_panics_on_two_windows :
    sysTaskInfo 0 (initState 1 1) 2 = .panicked := by
  decide

/-- Claim C8 as amended: when the buffer translates to more than one window,
`sys_task_info` produces no garbage and no partly written record — nothing
is written at all — but the failure is not surfaced as an error return: the
kernel logs and panics. -/
theorem sys_task_info_multi_window (now : Nat) (st : State) (w : Nat)
    (hw : w ≠ 1) :
    sysTaskInfo now st w = .panicked := by
  unfold sysTaskInfo
  rw [if_neg hw]

/-- Witness for the amended C8 at a concrete two-window call. -/
theorem sys_task_info_multi_window_witness :
    sysTaskInfo 3 demoState0 2 = .panicked :=
  sys_task_info_multi_window 3 demoState0 2 (by decide)

/-- Claim C7: `sys_mmap_inner` returns -1 and leaves the address space
unchanged when `start` is unaligned, when `port` has a bit outside the low
3 set, when `port` has none of the low 3 bits set, or when the requested
region overlaps an existing mapping; otherwise it installs the page-rounded
region and returns 0.  Validation precedes any mutation, so every failing
call has no side effect. -/
theorem sys_mmap_inner_spec (ms : MemorySet) (start len port : Nat) :
    ((aligned start = false ∨ port / 8 ≠ 0 ∨ port % 8 = 0) →
      sysMmapInner ms start len port = (-1, ms)) ∧
    (aligned start = true → port / 8 = 0 → port % 8 ≠ 0 →
      ((ms.areas.any fun a => regionOverlaps a (start / PAGE_SIZE,
          (start + len + PAGE_SIZE - 1) / PAGE_SIZE)) = true →
        sysMmapInner ms start len port = (-1, ms)) ∧
      ((ms.areas.any fun a => regionOverlaps a (start / PAGE_SIZE,
          (start + len + PAGE_SIZE - 1) / PAGE_SIZE)) = false →
        sysMmapInner ms start len port =
          (0, { areas := ms.areas ++ [(start / PAGE_SIZE,
            (start + len + PAGE_SIZE - 1) / PAGE_SIZE)] }))) := by
  constructor
  · intro h
    unfold sysMmapInner
    rw [if_pos]
    rcases h with h | h | h
    · left
      simp [h]
    · right
      left
      exact h
    · right
      right
      exact h
  · intro ha hp1 hp2
    unfold sysMmapInner
    rw [if_neg (by simp [ha, hp1, hp2])]
    unfold MemorySet.mmap
    constructor
    · intro hov
      simp only [hov, if_true]
    · intro hov
      simp only [hov, Bool.false_eq_true, if_false]

/-- Witness for C7: mapping a fresh page next to an existing area
succeeds and appends the page-rounded region. -/
theorem sys_mmap_inner_spec_witness :
    sysMmapInner { areas := [(0, 1)] } 4096 4096 3 =
      (0, { areas := [(0, 1), (1, 2)] }) := by
  have h := (sys_mmap_inner_spec { areas := [(0, 1)] } 4096 4096 3).2
    (by decide) (by decide) (by decide)
  rw [h.2 (by decide)]
  decide

/-- Claim C9: a syscall invocation increments the current task's
`syscall_times` entry for the invoked id by exactly one, and changes nothing
else: every other entry of the current task's table, every other field of
the current task, every other task and the current index are unchanged. -/
theorem syscall_entry_counts_once (st : State) (id : Nat)
    (hcur : st.current_task < st.tasks.length)
    (hid : id < (taskAt st st.current_task).syscall_times.length) :
    ((taskAt (syscallEntry st id) st.current_task).syscall_times.getD id 0 =
      (taskAt st st.current_task).syscall_times.getD id 0 + 1) ∧
    (∀ j, j ≠ id →
      (taskAt (syscallEntry st id) st.current_task).syscall_times.getD j 0 =
        (taskAt st st.current_task).syscall_times.getD j 0) ∧
    (∀ t, t ≠ st.current_task → taskAt (syscallEntry st id) t = taskAt st t) ∧
    ((taskAt (syscallEntry st id) st.current_task).task_status =
      (taskAt st st.current_task).task_status) ∧
    ((taskAt (syscallEntry st id) st.current_task).first_time =
      (taskAt st st.current_task).first_time) ∧
    ((taskAt (syscallEntry st id) st.current_task).dispatched =
      (taskAt st st.current_task).dispatched) ∧
    (syscallEntry st id).current_task = st.current_task := by
  have hself : taskAt (syscallEntry st id) st.current_task =
      { taskAt st st.current_task with
        syscall_times := (taskAt st st.current_task).syscall_times.set id
          ((taskAt st st.current_task).syscall_times.getD id 0 + 1) } :=
    taskAt_modify_self _ _ _ hcur
  refine ⟨?_, ?_, ?_, ?_, ?_, ?_, rfl⟩
  · rw [hself]
    simp only [List.getD_eq_getElem?_getD, List.getElem?_set_self hid]
    rfl
  · intro j hj
    rw [hself]
    simp only [List.getD_eq_getElem?_getD,
      List.getElem?_set_ne (fun e => hj e.symm)]
  · intro t ht
    exact taskAt_modify_ne _ _ _ _ (fun e => ht e.symm)
  · rw [hself]
  · rw [hself]
  · rw [hself]

/-- Witness for C9 on `demoState0` with syscall id 2. -/
theorem syscall_entry_counts_once_witness :
    (taskAt (syscallEntry demoState0 2)
        demoState0.current_task).syscall_times.getD 2 0 =
      (taskAt demoState0 demoState0.current_task).syscall_times.getD 2 0 + 1 :=
  (syscall_entry_counts_once demoState0 2 (by decide) (by decide)).1

/-- `run_next_task` never changes the status of an Exited task: the selected
task is Ready, hence distinct from every Exited one, and on the halting
branch nothing is modified. -/
theorem runNextTask_preserves_exited (now : Nat) (m : State) (i : Nat)
    (hex : (taskAt m i).task_status = .Exited) :
    (taskAt (resultState (runNextTask now m)) i).task_status = .Exited := by
  cases hfind : findNextTask m with
  | none =>
    unfold runNextTask
    rw [hfind]
    exact hex
  | some next =>
    obtain ⟨hlt, hready⟩ := findNextTask_sound m next hfind
    obtain ⟨st', hok, hc, hl, hne, hdt, hdf⟩ :=
      runNextTask_ok_char now m next hfind
    rw [hok]
    have hine : i ≠ next := by
      intro e
      rw [e, hready] at hex
      exact absurd hex (by simp)
    show (taskAt st' i).task_status = .Exited
    rw [hne i hine]
    exact hex

/-- A public scheduling operation on an invariant state never changes the
status of an Exited task, whether it returns or halts. -/
theorem stepOp_preserves_exited (op : Op) (st : State) (hInv : Inv st)
    (i : Nat) (hex : (taskAt st i).task_status = .Exited) :
    (taskAt (resultState (stepOp op st)) i).task_status = .Exited := by
  obtain ⟨hlen, hcur, hrunning, huniq, hdisp⟩ := hInv
  cases op with
  | suspend now =>
    have hm : (taskAt (markCurrentSuspended st) i).task_status = .Exited := by
      by_cases hi : i = st.current_task
      · rw [hi, hrunning] at hex
        exact absurd hex (by simp)
      · rw [taskAt_markSuspended_ne st i hi]
        exact hex
    exact runNextTask_preserves_exited now _ i hm
  | exit now =>
    have hm : (taskAt (markCurrentExited st) i).task_status = .Exited := by
      by_cases hi : i = st.current_task
      · rw [hi, taskAt_markExited_self st hcur]
      · rw [taskAt_markExited_ne st i hi]
        exact hex
    exact runNextTask_preserves_exited now _ i hm

theorem runOps_preserves_exited (ops : List Op) (st : State) (hInv : Inv st)
    (i : Nat) (hex : (taskAt st i).task_status = .Exited) :
    (taskAt (resultState (runOps ops st)) i).task_status = .Exited := by
  induction ops generalizing st with
  | nil => exact hex
  | cons op ops ih =>
    unfold runOps
    cases hs : stepOp op st with
    | ok s1 =>
      have h1 : (taskAt s1 i).task_status = .Exited := by
        have h0 := stepOp_preserves_exited op st
          ⟨hInv.1, hInv.2.1, hInv.2.2.1, hInv.2.2.2.1, hInv.2.2.2.2⟩ i hex
        rw [hs] at h0
        exact h0
      exact ih s1 (stepOp_ok_inv op st hInv hs) h1
    | halted s1 =>
      have h0 := stepOp_preserves_exited op st hInv i hex
      rw [hs] at h0
      exact h0

/-- Claim C10: Exited is terminal.  In any reachable state, a task whose
status is Exited still has status Exited after any further sequence of the
scheduling operations (each of which is a `mark_current_*` followed by
`run_next_task`), including at the instant of an `AllTasksCompleted`
halt. -/
theorem exited_is_terminal (st : State) (h : Reachable st) (ops : List Op)
    (i : Nat) (hex : (taskAt st i).task_status = .Exited) :
    (taskAt (resultState (runOps ops st)) i).task_status = .Exited :=
  runOps_preserves_exited ops st (reachable_inv st h) i hex

/-- Witness for C10 on the reachable state `demoState1`, where task 0 is
Exited: after a further yield it is still Exited. -/
theorem exited_is_terminal_witness :
    Reachable demoState1 ∧
      (taskAt (resultState (runOps [.suspend 30] demoState1)) 0).task_status =
        .Exited :=
  ⟨⟨3, 4, 10, [.exit 20], by decide, by decide⟩,
    exited_is_terminal demoState1 ⟨3, 4, 10, [.exit 20], by decide, by decide⟩
      [.suspend 30] 0 (by decide)⟩

/-- The `get_time_ms` value an operation reads. -/
def opNow : Op → Nat
  | .suspend now => now
  | .exit now => now

/-- After `mark_current_suspended`, no task is Running. -/
theorem markSuspended_no_running (st : State) (hInv : Inv st) :
    ∀ j, (taskAt (markCurrentSuspended st) j).task_status ≠ .Running := by
  obtain ⟨hlen, hcur, hrunning, huniq, hdisp⟩ := hInv
  intro j
  by_cases hj : j = st.current_task
  · rw [hj, taskAt_markSuspended_self st hcur]
    simp
  · rw [taskAt_markSuspended_ne st j hj]
    intro hr
    exact hj (huniq j hr)

/-- After `mark_current_exited`, no task is Running. -/
theorem markExited_no_running (st : State) (hInv : Inv st) :
    ∀ j, (taskAt (markCurrentExited st) j).task_status ≠ .Running := by
  obtain ⟨hlen, hcur, hrunning, huniq, hdisp⟩ := hInv
  intro j
  by_cases hj : j = st.current_task
  · rw [hj, taskAt_markExited_self st hcur]
    simp
  · rw [taskAt_markExited_ne st j hj]
    intro hr
    exact hj (huniq j hr)

/-- `mark_current_suspended` touches no dispatch bookkeeping. -/
theorem markSuspended_preserves_ft_dp (st : State)
    (hcur : st.current_task < st.tasks.length) (i : Nat) :
    (taskAt (markCurrentSuspended st) i).first_time =
      (taskAt st i).first_time ∧
    (taskAt (markCurrentSuspended st) i).dispatched =
      (taskAt st i).dispatched := by
  by_cases hi : i = st.current_task
  · rw [hi, taskAt_markSuspended_self st hcur]
    exact ⟨rfl, rfl⟩
  · rw [taskAt_markSuspended_ne st i hi]
    exact ⟨rfl, rfl⟩

/-- `mark_current_exited` touches no dispatch bookkeeping. -/
theorem markExited_preserves_ft_dp (st : State)
    (hcur : st.current_task < st.tasks.length) (i : Nat) :
    (taskAt (markCurrentExited st) i).first_time =
      (taskAt st i).first_time ∧
    (taskAt (markCurrentExited st) i).dispatched =
      (taskAt st i).dispatched := by
  by_cases hi : i = st.current_task
  · rw [hi, taskAt_markExited_self st hcur]
    exact ⟨rfl, rfl⟩
  · rw [taskAt_markExited_ne st i hi]
    exact ⟨rfl, rfl⟩

/-- The dispatch bookkeeping behaviour of `run_next_task` from a state with
no Running task: each task's `(first_time, dispatched)` pair is either left
untouched, or receives the one-shot dispatch write — `first_time := now` and
`dispatched := true` — exactly on a Ready-to-Running transition of a task
whose dispatched flag was clear; and any undispatched task that ends up
Running has received the write. -/
theorem runNextTask_dispatch_write (now : Nat) (m : State)
    (hnorun : ∀ j, (taskAt m j).task_status ≠ .Running) (i : Nat) :
    (((taskAt (resultState (runNextTask now m)) i).first_time =
        (taskAt m i).first_time ∧
      (taskAt (resultState (runNextTask now m)) i).dispatched =
        (taskAt m i).dispatched) ∨
     ((taskAt m i).dispatched = false ∧
      (taskAt m i).task_status = .Ready ∧
      (taskAt (resultState (runNextTask now m)) i).dispatched = true ∧
      (taskAt (resultState (runNextTask now m)) i).task_status = .Running ∧
      (taskAt (resultState (runNextTask now m)) i).first_time = now)) ∧
    ((taskAt m i).dispatched = false →
      (taskAt (resultState (runNextTask now m)) i).task_status = .Running →
      ((taskAt (resultState (runNextTask now m)) i).first_time = now ∧
       (taskAt (resultState (runNextTask now m)) i).dispatched = true)) := by
  cases hfind : findNextTask m with
  | none =>
    have hres : resultState (runNextTask now m) = m := by
      unfold runNextTask
      rw [hfind]
      rfl
    rw [hres]
    refine ⟨Or.inl ⟨rfl, rfl⟩, ?_⟩
    intro _ hrn
    exact absurd hrn (hnorun i)
  | some next =>
    obtain ⟨hlt, hready⟩ := findNextTask_sound m next hfind
    obtain ⟨st', hok, hc, hl, hne, hdt, hdf⟩ :=
      runNextTask_ok_char now m next hfind
    have hres : resultState (runNextTask now m) = st' := by
      rw [hok]
      rfl
    rw [hres]
    by_cases hi : i = next
    · subst hi
      rcases Bool.eq_false_or_eq_true (taskAt m i).dispatched with hbd | hbd
      · have hs := hdf hbd
        refine ⟨Or.inl ⟨?_, ?_⟩, ?_⟩
        · rw [hs]
        · rw [hs]
        · intro hdfalse _
          rw [hbd] at hdfalse
          exact absurd hdfalse (by simp)
      · have hs := hdt hbd
        refine ⟨Or.inr ⟨hbd, hready, ?_, ?_, ?_⟩, ?_⟩
        · rw [hs]
        · rw [hs]
        · rw [hs]
        · intro _ _
          exact ⟨by rw [hs], by rw [hs]⟩
    · rw [hne i hi]
      refine ⟨Or.inl ⟨rfl, rfl⟩, ?_⟩
      intro _ hrn
      exact absurd hrn (hnorun i)

/-- Claim C5: across every public scheduling operation from a reachable
state, each task's `(first_time, dispatched)` pair is either untouched, or
receives the one-shot dispatch write (`first_time := now`, `dispatched :=
true`) exactly on that task's first (undispatched) Ready-to-Running
transition; once `dispatched` is set, `first_time` is never changed again,
and any undispatched task that the operation makes Running has its dispatch
time recorded by it. -/
theorem dispatch_time_written_once (st : State) (h : Reachable st) (op : Op)
    (i : Nat) :
    (((taskAt (resultState (stepOp op st)) i).first_time =
        (taskAt st i).first_time ∧
      (taskAt (resultState (stepOp op st)) i).dispatched =
        (taskAt st i).dispatched) ∨
     ((taskAt st i).dispatched = false ∧
      (taskAt st i).task_status = .Ready ∧
      (taskAt (resultState (stepOp op st)) i).dispatched = true ∧
      (taskAt (resultState (stepOp op st)) i).task_status = .Running ∧
      (taskAt (resultState (stepOp op st)) i).first_time = opNow op)) ∧
    ((taskAt st i).dispatched = false →
      (taskAt (resultState (stepOp op st)) i).task_status = .Running →
      ((taskAt (resultState (stepOp op st)) i).first_time = opNow op ∧
       (taskAt (resultState (stepOp op st)) i).dispatched = true)) := by
  have hInv := reachable_inv st h
  obtain ⟨hlen, hcur, hrunning, huniq, hdisp⟩ := hInv
  cases op with
  | suspend now =>
    simp only [stepOp, suspendCurrentAndRunNext, opNow]
    have hnr := markSuspended_no_running st
      ⟨hlen, hcur, hrunning, huniq, hdisp⟩
    obtain ⟨hft, hdp⟩ := markSuspended_preserves_ft_dp st hcur i
    obtain ⟨hA, hB⟩ :=
      runNextTask_dispatch_write now (markCurrentSuspended st) hnr i
    constructor
    · rcases hA with ⟨h1, h2⟩ | ⟨h1, h2, h3, h4, h5⟩
      · left
        rw [hft] at h1
        rw [hdp] at h2
        exact ⟨h1, h2⟩
      · right
        rw [hdp] at h1
        have hilen : i < st.tasks.length := by
          by_contra hge
          have hdef : taskAt (markCurrentSuspended st) i = default := by
            apply taskAt_oob
            have hlm : (markCurrentSuspended st).tasks.length =
                st.tasks.length := modifyTask_length _ _ _
            omega
          rw [hdef, default_status] at h2
          exact absurd h2 (by simp)
        have hine : i ≠ st.current_task := by
          intro e
          have hr := hdisp i hilen h1
          rw [e, hrunning] at hr
          exact absurd hr (by simp)
        have hst : (taskAt st i).task_status = .Ready := by
          rw [← taskAt_markSuspended_ne st i hine]
          exact h2
        exact ⟨h1, hst, h3, h4, h5⟩
    · intro hdf hrn
      rw [← hdp] at hdf
      exact hB hdf hrn
  | exit now =>
    simp only [stepOp, exitCurrentAndRunNext, opNow]
    have hnr := markExited_no_running st
      ⟨hlen, hcur, hrunning, huniq, hdisp⟩
    obtain ⟨hft, hdp⟩ := markExited_preserves_ft_dp st hcur i
    obtain ⟨hA, hB⟩ :=
      runNextTask_dispatch_write now (markCurrentExited st) hnr i
    constructor
    · rcases hA with ⟨h1, h2⟩ | ⟨h1, h2, h3, h4, h5⟩
      · left
        rw [hft] at h1
        rw [hdp] at h2
        exact ⟨h1, h2⟩
      · right
        rw [hdp] at h1
        have hilen : i < st.tasks.length := by
          by_contra hge
          have hdef : taskAt (markCurrentExited st) i = default := by
            apply taskAt_oob
            have hlm : (markCurrentExited st).tasks.length =
                st.tasks.length := modifyTask_length _ _ _
            omega
          rw [hdef, default_status] at h2
          exact absurd h2 (by simp)
        have hine : i ≠ st.current_task := by
          intro e
          have hr := hdisp i hilen h1
          rw [e, hrunning] at hr
          exact absurd hr (by simp)
        have hst : (taskAt st i).task_status = .Ready := by
          rw [← taskAt_markExited_ne st i hine]
          exact h2
        exact ⟨h1, hst, h3, h4, h5⟩
    · intro hdf hrn
      rw [← hdp] at hdf
      exact hB hdf hrn

/-- Witness for C5: in `demoState0` task 1 is undispatched; yielding at time
30 dispatches it and records `first_time = 30` with the flag set. -/
theorem dispatch_time_written_once_witness :
    (taskAt (resultState (stepOp (.suspend 30) demoState0)) 1).first_time =
      30 ∧
    (taskAt (resultState (stepOp (.suspend 30) demoState0)) 1).dispatched =
      true :=
  (dispatch_time_written_once demoState0 ⟨3, 4, 10, [], by decide, by decide⟩
    (.suspend 30) 1).2 (by decide) (by decide)

end Os4
